import Mathlib

/-!
# Verification of the Codex MCP configuration engine (`src-tauri/src/codex_mcp.rs`)

Shallow embedding of the TOML ↔ JSON translation engine:

* `Toml` / `Json` model the `toml::Value` / `serde_json::Value` trees; tables
  and objects are association lists in insertion order (parsed TOML tables have
  unique keys, which theorems assume via `Nodup` hypotheses where needed).
* `toml_server_to_json` embeds the read-direction normalizer, returning the
  optional descriptor together with the emitted diagnostics.
* `read_mcp_servers_map` embeds the reader on an already-parsed root table
  (file I/O and TOML parsing happen before the logic under verification; after
  a successful parse the Rust function has no failing path, which the
  `Except`-valued wrapper makes explicit).
* `json_server_to_toml_table` embeds the write-direction normalizer and
  `set_mcp_servers_map` the writer, again on the parsed document tree.
-/

/-- Severity of a diagnostic signal (`log::info!` / `log::warn!` / `log::error!`). -/
inductive Severity where
  | info
  | warn
  | error
  deriving DecidableEq, Repr

/-- One emitted diagnostic: severity plus message text. -/
structure LogEvent where
  sev : Severity
  msg : String
  deriving DecidableEq, Repr

/-- Embedding of `serde_json::Value`. Objects are association lists in insertion
order; numbers are modelled as integers (the engine never inspects numerics
beyond "is it a string?"). -/
inductive Json where
  | null : Json
  | bool : Bool → Json
  | num : Int → Json
  | str : String → Json
  | arr : List Json → Json
  | obj : List (String × Json) → Json

/-- Embedding of `toml::Value` / `toml_edit::Item` trees. Tables are
association lists in insertion order. -/
inductive Toml where
  | bool : Bool → Toml
  | int : Int → Toml
  | str : String → Toml
  | arr : List Toml → Toml
  | table : List (String × Toml) → Toml

/-- Association-list lookup: first binding of the key (`Map::get`). -/
def alookup {α : Type} : List (String × α) → String → Option α
  | [], _ => none
  | (k', v) :: rest, k => if k' = k then some v else alookup rest k

/-- Map-style insert (`t[key] = value` / `HashMap::insert`): replaces the first
binding of the key, appends if absent. -/
def upsert {α : Type} : List (String × α) → String → α → List (String × α)
  | [], k, v => [(k, v)]
  | (k', v') :: rest, k, v =>
    if k' = k then (k, v) :: rest else (k', v') :: upsert rest k v

/-- Map-style remove (`Table::remove`): drops every binding of the key (on
tables with unique keys this is exactly one binding). -/
def tremove {α : Type} (l : List (String × α)) (k : String) : List (String × α) :=
  l.filter (fun p => p.1 ≠ k)

/-- `contains_key`. -/
def acontains {α : Type} (l : List (String × α)) (k : String) : Bool :=
  (alookup l k).isSome

/-- `Value::as_str`. -/
def Toml.as_str : Toml → Option String
  | .str s => some s
  | _ => none

/-- `Value::as_array`. -/
def Toml.as_array : Toml → Option (List Toml)
  | .arr l => some l
  | _ => none

/-- `Value::as_table` (also covering `as_table_like` on the edit side). -/
def Toml.as_table : Toml → Option (List (String × Toml))
  | .table t => some t
  | _ => none

/-- `serde_json::Value::get(key)`: object lookup, `None` on non-objects. -/
def Json.get : Json → String → Option Json
  | .obj l, k => alookup l k
  | _, _ => none

/-- `serde_json::Value::as_str`. -/
def Json.as_str : Json → Option String
  | .str s => some s
  | _ => none

/-- `serde_json::Value::as_array`. -/
def Json.as_array : Json → Option (List Json)
  | .arr l => some l
  | _ => none

/-- `serde_json::Value::as_object`. -/
def Json.as_object : Json → Option (List (String × Json))
  | .obj l => some l
  | _ => none

/-- Embedding of `str::trim`: strip whitespace from both ends (written over
the character list so that it computes by `rfl`/`decide`). -/
def strTrim (s : String) : String :=
  String.mk (((s.data.dropWhile Char.isWhitespace).reverse.dropWhile
    Char.isWhitespace).reverse)

/-- `toml::Table::get`. -/
def tget (t : List (String × Toml)) (k : String) : Option Toml :=
  alookup t k

/-- The loop `for (k, v) in src { if let Some(b) = f(v) { dst.insert(k, b) } }`
shared by the `env`/`headers` conversions in both directions. -/
def buildTbl {α β : Type} (f : α → Option β) :
    List (String × α) → List (String × β) → List (String × β)
  | [], acc => acc
  | (k, v) :: rest, acc =>
    match f v with
    | some b => buildTbl f rest (upsert acc k b)
    | none => buildTbl f rest acc

/-- Read-direction normalizer `toml_server_to_json`: converts one raw TOML
entry into an optional JSON descriptor, together with the diagnostics emitted
while doing so. Mirrors `codex_mcp.rs` lines 84–161. -/
def toml_server_to_json (id : String) (entry_val : Toml) :
    Option Json × List LogEvent :=
  match entry_val.as_table with
  | none => (none, [])
  | some entry_tbl =>
    let typ := ((tget entry_tbl "type").bind Toml.as_str).getD "stdio"
    let spec0 : List (String × Json) := [("type", Json.str typ)]
    if typ = "stdio" then
      let spec1 :=
        match (tget entry_tbl "command").bind Toml.as_str with
        | some cmd => upsert spec0 "command" (Json.str cmd)
        | none => spec0
      let spec2 :=
        match (tget entry_tbl "args").bind Toml.as_array with
        | some args =>
          let arr := (args.filterMap Toml.as_str).map Json.str
          if arr.isEmpty then spec1 else upsert spec1 "args" (Json.arr arr)
        | none => spec1
      let spec3 :=
        match (tget entry_tbl "env").bind Toml.as_table with
        | some env_tbl =>
          let env_json := buildTbl (fun v => (Toml.as_str v).map Json.str) env_tbl []
          if env_json.isEmpty then spec2 else upsert spec2 "env" (Json.obj env_json)
        | none => spec2
      let spec4 :=
        match (tget entry_tbl "cwd").bind Toml.as_str with
        | some cwd => if strTrim cwd = "" then spec3 else upsert spec3 "cwd" (Json.str cwd)
        | none => spec3
      (some (Json.obj spec4), [])
    else if typ = "http" ∨ typ = "sse" then
      let spec1 :=
        match (tget entry_tbl "url").bind Toml.as_str with
        | some url => upsert spec0 "url" (Json.str url)
        | none => spec0
      let headers_tbl :=
        ((tget entry_tbl "http_headers").bind Toml.as_table).orElse
          (fun _ => (tget entry_tbl "headers").bind Toml.as_table)
      let spec2 :=
        match headers_tbl with
        | some h_tbl =>
          let headers_json := buildTbl (fun v => (Toml.as_str v).map Json.str) h_tbl []
          if headers_json.isEmpty then spec1
          else upsert spec1 "headers" (Json.obj headers_json)
        | none => spec1
      (some (Json.obj spec2), [])
    else
      (none, [⟨Severity.warn,
        "跳过未知类型 '" ++ typ ++ "' 的 Codex MCP 项 '" ++ id ++ "'"⟩])

/-- The primary-location loop of `read_mcp_servers_map` (lines 55–61): insert
each successfully normalized entry into the accumulated result. -/
def scanPrimary : List (String × Toml) → List (String × Json) → List LogEvent →
    List (String × Json) × List LogEvent
  | [], acc, logs => (acc, logs)
  | (id, v) :: rest, acc, logs =>
    match toml_server_to_json id v with
    | (some server, evs) => scanPrimary rest (upsert acc id server) (logs ++ evs)
    | (none, evs) => scanPrimary rest acc (logs ++ evs)

/-- The legacy-location loop (lines 64–77): only identifiers not already in the
result are considered. -/
def scanLegacy : List (String × Toml) → List (String × Json) → List LogEvent →
    List (String × Json) × List LogEvent
  | [], acc, logs => (acc, logs)
  | (id, v) :: rest, acc, logs =>
    if acontains acc id then scanLegacy rest acc logs
    else
      match toml_server_to_json id v with
      | (some server, evs) => scanLegacy rest (upsert acc id server) (logs ++ evs)
      | (none, evs) => scanLegacy rest acc (logs ++ evs)

/-- Reader core on the parsed root table: scan `[mcp_servers]`, then
`[mcp.servers]` for identifiers not already present. -/
def readServersRoot (root : List (String × Toml)) :
    List (String × Json) × List LogEvent :=
  let primary :=
    match (tget root "mcp_servers").bind Toml.as_table with
    | some mcp_servers => scanPrimary mcp_servers [] []
    | none => ([], [])
  match tget root "mcp" with
  | some mcp_val =>
    match mcp_val.as_table with
    | some mcp_tbl =>
      match (tget mcp_tbl "servers").bind Toml.as_table with
      | some servers_tbl => scanLegacy servers_tbl primary.1 primary.2
      | none => primary
    | none => primary
  | none => primary

/-- `read_mcp_servers_map` after a successful parse of the file contents: the
Rust function has no failing path from this point on, which the `Except`
wrapper records (its `Err` cases — I/O and parse failure — occur before the
logic embedded here). -/
def read_mcp_servers_map (root : List (String × Toml)) :
    Except String (List (String × Json) × List LogEvent) :=
  .ok (readServersRoot root)

/-- Write-direction normalizer `json_server_to_toml_table` (lines 225–287):
converts one JSON descriptor into a TOML entry table, or a per-entry error for
an unsupported `type`. -/
def json_server_to_toml_table (spec : Json) :
    Except String (List (String × Toml)) :=
  let typ := ((spec.get "type").bind Json.as_str).getD "stdio"
  let t0 : List (String × Toml) := [("type", Toml.str typ)]
  if typ = "stdio" then
    let cmd := ((spec.get "command").bind Json.as_str).getD ""
    let t1 := upsert t0 "command" (Toml.str cmd)
    let t2 :=
      match (spec.get "args").bind Json.as_array with
      | some args =>
        let arr_v := (args.filterMap Json.as_str).map Toml.str
        if arr_v.isEmpty then t1 else upsert t1 "args" (Toml.arr arr_v)
      | none => t1
    let t3 :=
      match (spec.get "cwd").bind Json.as_str with
      | some cwd => if strTrim cwd = "" then t2 else upsert t2 "cwd" (Toml.str cwd)
      | none => t2
    let t4 :=
      match (spec.get "env").bind Json.as_object with
      | some env =>
        let env_tbl := buildTbl (fun v => (Json.as_str v).map Toml.str) env []
        if env_tbl.isEmpty then t3 else upsert t3 "env" (Toml.table env_tbl)
      | none => t3
    .ok t4
  else if typ = "http" ∨ typ = "sse" then
    let url := ((spec.get "url").bind Json.as_str).getD ""
    let t1 := upsert t0 "url" (Toml.str url)
    let t2 :=
      match (spec.get "headers").bind Json.as_object with
      | some headers =>
        let h_tbl := buildTbl (fun v => (Json.as_str v).map Toml.str) headers []
        if h_tbl.isEmpty then t1 else upsert t1 "http_headers" (Toml.table h_tbl)
      | none => t1
    .ok t2
  else
    .error ("不支持的服务器类型: " ++ typ)

/-- The server-table building loop of `set_mcp_servers_map` (lines 197–208): a
per-entry error only logs (at error severity) and skips that entry. -/
def buildServersTbl : List (String × Json) → List (String × Toml) → List LogEvent →
    List (String × Toml) × List LogEvent
  | [], acc, logs => (acc, logs)
  | (id, spec) :: rest, acc, logs =>
    match json_server_to_toml_table spec with
    | .ok table => buildServersTbl rest (upsert acc id (Toml.table table)) logs
    | .error err =>
      buildServersTbl rest acc
        (logs ++ [⟨Severity.error, "跳过无效的 MCP 服务器 '" ++ id ++ "': " ++ err⟩])

/-- The legacy-format cleanup phase of `set_mcp_servers_map` (lines 182–190):
if the document has an `[mcp]` table-like item containing a `servers` key,
remove that key (with a warning). -/
def cleanLegacy (doc : List (String × Toml)) :
    List (String × Toml) × List LogEvent :=
  match tget doc "mcp" with
  | some mcp_item =>
    match mcp_item.as_table with
    | some tbl =>
      if acontains tbl "servers" then
        (upsert doc "mcp" (Toml.table (tremove tbl "servers")),
         [LogEvent.mk Severity.warn "检测到错误的 MCP 格式 [mcp.servers]，正在清理"])
      else (doc, [])
    | none => (doc, [])
  | none => (doc, [])

/-- Writer core `set_mcp_servers_map` on the parsed document (lines 182–211):
clean up the legacy `[mcp.servers]` sub-table, then replace or remove the
top-level `mcp_servers` table. Input `servers` is the `HashMap` of descriptors
as an association list (unique identifiers). -/
def setServersRoot (servers : List (String × Json)) (doc : List (String × Toml)) :
    List (String × Toml) × List LogEvent :=
  let cleaned := cleanLegacy doc
  if servers.isEmpty then
    (tremove cleaned.1 "mcp_servers", cleaned.2)
  else
    let built := buildServersTbl servers [] cleaned.2
    (upsert cleaned.1 "mcp_servers" (Toml.table built.1), built.2)

/-- `set_mcp_servers_map` as seen by the caller: once the existing document has
been parsed, the Rust function's only remaining failure modes are file-system
I/O, outside the embedded logic; the write of the translated document always
returns `Ok(())`. -/
def set_mcp_servers_map (servers : List (String × Json)) (doc : List (String × Toml)) :
    Except String (List (String × Toml) × List LogEvent) :=
  .ok (setServersRoot servers doc)

/-- The descriptor model of the specification (§3): one server entry, typed.
`args`, `env` and `headers` are mappings/sequences where "empty" and "absent"
collapse to the same meaning; `cwd` is optional. -/
inductive ServerDescriptor where
  | stdio (command : String) (args : List String)
      (env : List (String × String)) (cwd : Option String)
  | http (url : String) (headers : List (String × String))
  | sse (url : String) (headers : List (String × String))

/-- "`cwd` is non-blank when present". -/
def nonBlankOpt : Option String → Prop
  | some c => strTrim c ≠ ""
  | none => True

instance : ∀ o, Decidable (nonBlankOpt o)
  | some c => inferInstanceAs (Decidable (strTrim c ≠ ""))
  | none => .isTrue trivial

/-- A valid, non-blank descriptor in the sense of the round-trip property:
stdio entries carry a non-empty command, http/sse entries a non-empty url;
`cwd`, when present, is non-blank; the `env`/`headers` mappings have distinct
keys (they model maps). -/
def ServerDescriptor.Valid : ServerDescriptor → Prop
  | .stdio command _ env cwd =>
      command ≠ "" ∧ (env.map Prod.fst).Nodup ∧ nonBlankOpt cwd
  | .http url headers => url ≠ "" ∧ (headers.map Prod.fst).Nodup
  | .sse url headers => url ≠ "" ∧ (headers.map Prod.fst).Nodup

instance : ∀ d : ServerDescriptor, Decidable d.Valid
  | .stdio command _ env cwd =>
    inferInstanceAs (Decidable (command ≠ "" ∧ (env.map Prod.fst).Nodup ∧ nonBlankOpt cwd))
  | .http url headers =>
    inferInstanceAs (Decidable (url ≠ "" ∧ (headers.map Prod.fst).Nodup))
  | .sse url headers =>
    inferInstanceAs (Decidable (url ≠ "" ∧ (headers.map Prod.fst).Nodup))

/-- The loosely-typed JSON value a descriptor is exchanged as across the
in-process boundary (§6), with the "omit when empty" fields omitted exactly as
§3 defines them. -/
def ServerDescriptor.toJson : ServerDescriptor → Json
  | .stdio command args env cwd =>
    Json.obj
      ([("type", Json.str "stdio"), ("command", Json.str command)]
        ++ (if args.isEmpty then [] else [("args", Json.arr (args.map Json.str))])
        ++ (if env.isEmpty then []
            else [("env", Json.obj (env.map (fun p => (p.1, Json.str p.2))))])
        ++ (match cwd with
            | some c => [("cwd", Json.str c)]
            | none => []))
  | .http url headers =>
    Json.obj
      ([("type", Json.str "http"), ("url", Json.str url)]
        ++ (if headers.isEmpty then []
            else [("headers", Json.obj (headers.map (fun p => (p.1, Json.str p.2))))]))
  | .sse url headers =>
    Json.obj
      ([("type", Json.str "sse"), ("url", Json.str url)]
        ++ (if headers.isEmpty then []
            else [("headers", Json.obj (headers.map (fun p => (p.1, Json.str p.2))))]))

/-! ## Association-list lemmas -/

theorem alookup_upsert {α : Type} (l : List (String × α)) (k k' : String) (v : α) :
    alookup (upsert l k v) k' = if k = k' then some v else alookup l k' := by
  induction l with
  | nil => simp [upsert, alookup]
  | cons p rest ih =>
    obtain ⟨pk, pv⟩ := p
    by_cases hpk : pk = k
    · subst hpk
      simp only [upsert, if_pos rfl, alookup]
      by_cases hk' : pk = k' <;> simp [alookup, hk']
    · simp only [upsert, if_neg hpk, alookup]
      by_cases hk' : pk = k'
      · subst hk'
        have : ¬ k = pk := fun h => hpk h.symm
        simp [this]
      · simp [hk', ih]

theorem alookup_tremove {α : Type} (l : List (String × α)) (k k' : String) :
    alookup (tremove l k) k' = if k = k' then none else alookup l k' := by
  induction l with
  | nil => simp [tremove, alookup]
  | cons p rest ih =>
    obtain ⟨pk, pv⟩ := p
    by_cases hpk : pk = k
    · subst hpk
      by_cases hk' : pk = k'
      · simp only [tremove, List.filter] at ih ⊢
        simp only [hk'] at ih ⊢
        simp_all [alookup]
      · simp_all [tremove, List.filter, alookup]
    · by_cases hk' : pk = k'
      · subst hk'
        have : ¬ k = pk := fun h => hpk h.symm
        simp_all [tremove, List.filter, alookup]
      · simp_all [tremove, List.filter, alookup]

theorem alookup_map_snd {α β : Type} (g : α → β) (l : List (String × α)) (k : String) :
    alookup (l.map (fun p => (p.1, g p.2))) k = (alookup l k).map g := by
  induction l with
  | nil => simp [alookup]
  | cons p rest ih =>
    by_cases h : p.1 = k <;> simp [alookup, h, ih]

theorem alookup_eq_none_of_not_mem {α : Type} (l : List (String × α)) (k : String)
    (h : k ∉ l.map Prod.fst) : alookup l k = none := by
  induction l with
  | nil => simp [alookup]
  | cons p rest ih =>
    simp only [List.map_cons, List.mem_cons] at h
    push_neg at h
    have : p.1 ≠ k := fun he => h.1 he.symm
    simp [alookup, this, ih h.2]

theorem upsert_eq_append_of_not_mem {α : Type} (l : List (String × α)) (k : String)
    (v : α) (h : k ∉ l.map Prod.fst) : upsert l k v = l ++ [(k, v)] := by
  induction l with
  | nil => simp [upsert]
  | cons p rest ih =>
    simp only [List.map_cons, List.mem_cons] at h
    push_neg at h
    have : p.1 ≠ k := fun he => h.1 he.symm
    simp [upsert, this, ih h.2]

theorem keys_upsert {α : Type} (l : List (String × α)) (k : String) (v : α) :
    (upsert l k v).map Prod.fst =
      if k ∈ l.map Prod.fst then l.map Prod.fst else l.map Prod.fst ++ [k] := by
  induction l with
  | nil => simp [upsert]
  | cons p rest ih =>
    by_cases hpk : p.1 = k
    · obtain ⟨pk, pv⟩ := p
      simp only at hpk
      subst hpk
      simp [upsert]
    · have : ¬ k = p.1 := fun he => hpk he.symm
      by_cases hmem : k ∈ rest.map Prod.fst <;>
        simp [upsert, hpk, ih, hmem, this]

theorem keys_upsert_nodup {α : Type} (l : List (String × α)) (k : String) (v : α)
    (h : (l.map Prod.fst).Nodup) : ((upsert l k v).map Prod.fst).Nodup := by
  rw [keys_upsert]
  by_cases hmem : k ∈ l.map Prod.fst
  · simpa [hmem]
  · simp [hmem, List.nodup_append, h]

theorem buildTbl_eq_filterMap {α β : Type} (f : α → Option β)
    (l : List (String × α)) (acc : List (String × β))
    (hnd : (l.map Prod.fst).Nodup)
    (hdisj : ∀ k, k ∈ l.map Prod.fst → k ∉ acc.map Prod.fst) :
    buildTbl f l acc =
      acc ++ l.filterMap (fun p => (f p.2).map (fun b => (p.1, b))) := by
  induction l generalizing acc with
  | nil => simp [buildTbl]
  | cons p rest ih =>
    obtain ⟨pk, pv⟩ := p
    simp only [List.map_cons, List.nodup_cons] at hnd
    match hf : f pv with
    | some b =>
      rw [buildTbl]
      simp only [hf]
      rw [upsert_eq_append_of_not_mem _ _ _ (hdisj pk (by simp))]
      rw [ih _ hnd.2 ?_]
      · simp [hf, List.filterMap_cons]
      · intro k hk
        simp only [List.map_append, List.mem_append]
        push_neg
        refine ⟨hdisj k (by simp [hk]), ?_⟩
        simp only [List.map_cons, List.map_nil, List.mem_singleton]
        intro he
        exact hnd.1 (he ▸ hk)
    | none =>
      rw [buildTbl]
      simp only [hf]
      rw [ih _ hnd.2 (fun k hk => hdisj k (by simp [hk]))]
      simp [hf, List.filterMap_cons]

/-! ## Characterizations of the reader and writer loops -/

theorem scanPrimary_fst_logs (l : List (String × Toml)) (acc : List (String × Json))
    (logs logs' : List LogEvent) :
    (scanPrimary l acc logs).1 = (scanPrimary l acc logs').1 := by
  induction l generalizing acc logs logs' with
  | nil => rfl
  | cons p rest ih =>
    obtain ⟨id, v⟩ := p
    match h : toml_server_to_json id v with
    | (some server, evs) =>
      simp only [scanPrimary, h]
      exact ih _ _ _
    | (none, evs) =>
      simp only [scanPrimary, h]
      exact ih _ _ _

theorem alookup_scanPrimary (l : List (String × Toml)) (acc : List (String × Json))
    (logs : List LogEvent) (hnd : (l.map Prod.fst).Nodup) (id : String) :
    alookup (scanPrimary l acc logs).1 id =
      match alookup l id with
      | some v =>
        match (toml_server_to_json id v).1 with
        | some s => some s
        | none => alookup acc id
      | none => alookup acc id := by
  induction l generalizing acc logs with
  | nil => simp [scanPrimary, alookup]
  | cons p rest ih =>
    obtain ⟨pk, v⟩ := p
    simp only [List.map_cons, List.nodup_cons] at hnd
    by_cases hpk : pk = id
    · subst hpk
      have hrest : alookup rest pk = none :=
        alookup_eq_none_of_not_mem _ _ hnd.1
      match h : toml_server_to_json pk v with
      | (some server, evs) =>
        rw [scanPrimary]
        simp only [h]
        rw [ih _ _ hnd.2]
        simp [hrest, alookup, alookup_upsert, h]
      | (none, evs) =>
        rw [scanPrimary]
        simp only [h]
        rw [ih _ _ hnd.2]
        simp [hrest, alookup, h]
    · match h : toml_server_to_json pk v with
      | (some server, evs) =>
        rw [scanPrimary]
        simp only [h]
        rw [ih _ _ hnd.2]
        simp [alookup, hpk, alookup_upsert]
      | (none, evs) =>
        rw [scanPrimary]
        simp only [h]
        rw [ih _ _ hnd.2]
        simp [alookup, hpk]

theorem alookup_scanLegacy_of_some (l : List (String × Toml))
    (acc : List (String × Json)) (logs : List LogEvent) (id : String) (s : Json)
    (h : alookup acc id = some s) :
    alookup (scanLegacy l acc logs).1 id = some s := by
  induction l generalizing acc logs with
  | nil => simpa [scanLegacy]
  | cons p rest ih =>
    obtain ⟨pk, v⟩ := p
    by_cases hc : acontains acc pk
    · simpa [scanLegacy, hc] using ih _ _ h
    · have hpk : pk ≠ id := by
        intro he
        subst he
        simp [acontains, h] at hc
      have hcf : acontains acc pk = false := by simpa using hc
      match hn : toml_server_to_json pk v with
      | (some server, evs) =>
        simp only [scanLegacy, hcf, Bool.false_eq_true, if_false, hn]
        exact ih _ _ (by simp [alookup_upsert, hpk, h])
      | (none, evs) =>
        simp only [scanLegacy, hcf, Bool.false_eq_true, if_false, hn]
        exact ih _ _ h

theorem buildServersTbl_fst_logs (m : List (String × Json))
    (acc : List (String × Toml)) (logs logs' : List LogEvent) :
    (buildServersTbl m acc logs).1 = (buildServersTbl m acc logs').1 := by
  induction m generalizing acc logs logs' with
  | nil => rfl
  | cons p rest ih =>
    obtain ⟨id, spec⟩ := p
    match h : json_server_to_toml_table spec with
    | .ok t =>
      simp only [buildServersTbl, h]
      exact ih _ _ _
    | .error e =>
      simp only [buildServersTbl, h]
      exact ih _ _ _

theorem alookup_buildServersTbl (m : List (String × Json))
    (acc : List (String × Toml)) (logs : List LogEvent)
    (hnd : (m.map Prod.fst).Nodup) (id : String) :
    alookup (buildServersTbl m acc logs).1 id =
      match alookup m id with
      | some spec =>
        match json_server_to_toml_table spec with
        | .ok t => some (Toml.table t)
        | .error _ => alookup acc id
      | none => alookup acc id := by
  induction m generalizing acc logs with
  | nil => simp [buildServersTbl, alookup]
  | cons p rest ih =>
    obtain ⟨pk, spec⟩ := p
    simp only [List.map_cons, List.nodup_cons] at hnd
    by_cases hpk : pk = id
    · subst hpk
      have hrest : alookup rest pk = none :=
        alookup_eq_none_of_not_mem _ _ hnd.1
      match h : json_server_to_toml_table spec with
      | .ok t =>
        rw [buildServersTbl]
        simp only [h]
        rw [ih _ _ hnd.2]
        simp [hrest, alookup, alookup_upsert, h]
      | .error e =>
        rw [buildServersTbl]
        simp only [h]
        rw [ih _ _ hnd.2]
        simp [hrest, alookup, h]
    · match h : json_server_to_toml_table spec with
      | .ok t =>
        rw [buildServersTbl]
        simp only [h]
        rw [ih _ _ hnd.2]
        simp [alookup, hpk, alookup_upsert]
      | .error e =>
        rw [buildServersTbl]
        simp only [h]
        rw [ih _ _ hnd.2]
        simp [alookup, hpk]

theorem keys_buildServersTbl_nodup (m : List (String × Json))
    (acc : List (String × Toml)) (logs : List LogEvent)
    (h : (acc.map Prod.fst).Nodup) :
    ((buildServersTbl m acc logs).1.map Prod.fst).Nodup := by
  induction m generalizing acc logs with
  | nil => simpa [buildServersTbl]
  | cons p rest ih =>
    obtain ⟨pk, spec⟩ := p
    match hn : json_server_to_toml_table spec with
    | .ok t =>
      rw [buildServersTbl]
      simp only [hn]
      exact ih _ _ (keys_upsert_nodup _ _ _ h)
    | .error e =>
      rw [buildServersTbl]
      simp only [hn]
      exact ih _ _ h

theorem buildServersTbl_logs_mono (m : List (String × Json))
    (acc : List (String × Toml)) (logs : List LogEvent) (ev : LogEvent)
    (h : ev ∈ logs) : ev ∈ (buildServersTbl m acc logs).2 := by
  induction m generalizing acc logs with
  | nil => simpa [buildServersTbl]
  | cons p rest ih =>
    obtain ⟨pk, spec⟩ := p
    match hn : json_server_to_toml_table spec with
    | .ok t =>
      rw [buildServersTbl]
      simp only [hn]
      exact ih _ _ h
    | .error e =>
      rw [buildServersTbl]
      simp only [hn]
      exact ih _ _ (by simp [h])

theorem buildServersTbl_error_log (m : List (String × Json))
    (acc : List (String × Toml)) (logs : List LogEvent) (id : String) (spec : Json)
    (e : String) (hmem : (id, spec) ∈ m) (herr : json_server_to_toml_table spec = .error e) :
    ∃ ev ∈ (buildServersTbl m acc logs).2, ev.sev = Severity.error := by
  induction m generalizing acc logs with
  | nil => simp at hmem
  | cons p rest ih =>
    obtain ⟨pk, pspec⟩ := p
    rcases List.mem_cons.mp hmem with hhead | htail
    · injection hhead with h1 h2
      subst h1
      subst h2
      rw [buildServersTbl]
      simp only [herr]
      refine ⟨⟨Severity.error, "跳过无效的 MCP 服务器 '" ++ id ++ "': " ++ e⟩, ?_, rfl⟩
      exact buildServersTbl_logs_mono _ _ _ _ (by simp)
    · match hn : json_server_to_toml_table pspec with
      | .ok t =>
        rw [buildServersTbl]
        simp only [hn]
        exact ih _ _ htail
      | .error e' =>
        rw [buildServersTbl]
        simp only [hn]
        exact ih _ _ htail


/-! ## Per-entry round trip -/

theorem filterMap_json_as_str (l : List String) :
    (l.map Json.str).filterMap Json.as_str = l := by
  induction l with
  | nil => rfl
  | cons a rest ih => simp [List.filterMap_cons, Json.as_str, ih]

theorem filterMap_toml_as_str (l : List String) :
    (l.map Toml.str).filterMap Toml.as_str = l := by
  induction l with
  | nil => rfl
  | cons a rest ih => simp [List.filterMap_cons, Toml.as_str, ih]

theorem buildTbl_toml_of_strings (env : List (String × String))
    (hnd : (env.map Prod.fst).Nodup) :
    buildTbl (fun v => (Json.as_str v).map Toml.str)
        (env.map (fun p => (p.1, Json.str p.2))) [] =
      env.map (fun p => (p.1, Toml.str p.2)) := by
  rw [buildTbl_eq_filterMap _ _ _ (by simpa [List.map_map, Function.comp] using hnd)
    (by simp)]
  simp only [List.nil_append]
  clear hnd
  induction env with
  | nil => rfl
  | cons p rest ih =>
    simp only [List.map_cons, List.filterMap_cons, Json.as_str, Option.map] at ih ⊢
    rw [ih]

theorem buildTbl_json_of_strings (env : List (String × String))
    (hnd : (env.map Prod.fst).Nodup) :
    buildTbl (fun v => (Toml.as_str v).map Json.str)
        (env.map (fun p => (p.1, Toml.str p.2))) [] =
      env.map (fun p => (p.1, Json.str p.2)) := by
  rw [buildTbl_eq_filterMap _ _ _ (by simpa [List.map_map, Function.comp] using hnd)
    (by simp)]
  simp only [List.nil_append]
  clear hnd
  induction env with
  | nil => rfl
  | cons p rest ih =>
    simp only [List.map_cons, List.filterMap_cons, Toml.as_str, Option.map] at ih ⊢
    rw [ih]

/-- The TOML entry table the write-direction normalizer produces for a valid
descriptor (source insertion order: `type`, `command`, `args`, `cwd`, `env`
for stdio; `type`, `url`, `http_headers` for http/sse). -/
def tomlOfDesc : ServerDescriptor → List (String × Toml)
  | .stdio command args env cwd =>
    [("type", Toml.str "stdio"), ("command", Toml.str command)]
      ++ (if args.isEmpty then [] else [("args", Toml.arr (args.map Toml.str))])
      ++ (match cwd with
          | some c => if strTrim c = "" then [] else [("cwd", Toml.str c)]
          | none => [])
      ++ (if env.isEmpty then []
          else [("env", Toml.table (env.map (fun p => (p.1, Toml.str p.2))))])
  | .http url headers =>
    [("type", Toml.str "http"), ("url", Toml.str url)]
      ++ (if headers.isEmpty then []
          else [("http_headers", Toml.table (headers.map (fun p => (p.1, Toml.str p.2))))])
  | .sse url headers =>
    [("type", Toml.str "sse"), ("url", Toml.str url)]
      ++ (if headers.isEmpty then []
          else [("http_headers", Toml.table (headers.map (fun p => (p.1, Toml.str p.2))))])

theorem write_desc (d : ServerDescriptor) (hv : d.Valid) :
    json_server_to_toml_table d.toJson = .ok (tomlOfDesc d) := by
  cases d with
  | stdio command args env cwd =>
    obtain ⟨-, hnd, hcwd⟩ := hv
    have hbt := buildTbl_toml_of_strings env hnd
    have hfm := filterMap_json_as_str args
    simp only [Json.as_str] at hbt
    simp only [List.filterMap_map] at hfm
    by_cases hargs : args = [] <;> by_cases henv : env = [] <;>
      rcases cwd with - | c
    all_goals try have hc : strTrim c ≠ "" := hcwd
    all_goals try have h1 : ((args.map Toml.str)).isEmpty = false := by simp [hargs]
    all_goals try have h2 :
      ((env.map (fun p => (p.1, Toml.str p.2)))).isEmpty = false := by simp [henv]
    all_goals try subst hargs
    all_goals try subst henv
    all_goals
      simp_all [ServerDescriptor.toJson, json_server_to_toml_table, tomlOfDesc,
        Json.get, alookup, Json.as_str, Json.as_array, Json.as_object, upsert]
  | http url headers =>
    obtain ⟨-, hnd⟩ := hv
    have hbt := buildTbl_toml_of_strings headers hnd
    simp only [Json.as_str] at hbt
    by_cases hh : headers = []
    all_goals try have h2 :
      ((headers.map (fun p => (p.1, Toml.str p.2)))).isEmpty = false := by simp [hh]
    all_goals try subst hh
    all_goals
      simp_all [ServerDescriptor.toJson, json_server_to_toml_table, tomlOfDesc,
        Json.get, alookup, Json.as_str, Json.as_object, upsert]
  | sse url headers =>
    obtain ⟨-, hnd⟩ := hv
    have hbt := buildTbl_toml_of_strings headers hnd
    simp only [Json.as_str] at hbt
    by_cases hh : headers = []
    all_goals try have h2 :
      ((headers.map (fun p => (p.1, Toml.str p.2)))).isEmpty = false := by simp [hh]
    all_goals try subst hh
    all_goals
      simp_all [ServerDescriptor.toJson, json_server_to_toml_table, tomlOfDesc,
        Json.get, alookup, Json.as_str, Json.as_object, upsert]

theorem read_desc (d : ServerDescriptor) (hv : d.Valid) (id : String) :
    toml_server_to_json id (Toml.table (tomlOfDesc d)) = (some d.toJson, []) := by
  cases d with
  | stdio command args env cwd =>
    obtain ⟨-, hnd, hcwd⟩ := hv
    have hbt := buildTbl_json_of_strings env hnd
    have hfm := filterMap_toml_as_str args
    simp only [Toml.as_str] at hbt
    simp only [List.filterMap_map] at hfm
    by_cases hargs : args = [] <;> by_cases henv : env = [] <;>
      rcases cwd with - | c
    all_goals try have hc : strTrim c ≠ "" := hcwd
    all_goals try have h1 : ((args.map Json.str)).isEmpty = false := by simp [hargs]
    all_goals try have h2 :
      ((env.map (fun p => (p.1, Json.str p.2)))).isEmpty = false := by simp [henv]
    all_goals try subst hargs
    all_goals try subst henv
    all_goals
      simp_all [ServerDescriptor.toJson, toml_server_to_json, tomlOfDesc,
        tget, alookup, Toml.as_str, Toml.as_array, Toml.as_table, upsert,
        Option.orElse]
  | http url headers =>
    obtain ⟨-, hnd⟩ := hv
    have hbt := buildTbl_json_of_strings headers hnd
    simp only [Toml.as_str] at hbt
    by_cases hh : headers = []
    all_goals try have h2 :
      ((headers.map (fun p => (p.1, Json.str p.2)))).isEmpty = false := by simp [hh]
    all_goals try subst hh
    all_goals
      simp_all [ServerDescriptor.toJson, toml_server_to_json, tomlOfDesc,
        tget, alookup, Toml.as_str, Toml.as_table, upsert, Option.orElse]
  | sse url headers =>
    obtain ⟨-, hnd⟩ := hv
    have hbt := buildTbl_json_of_strings headers hnd
    simp only [Toml.as_str] at hbt
    by_cases hh : headers = []
    all_goals try have h2 :
      ((headers.map (fun p => (p.1, Json.str p.2)))).isEmpty = false := by simp [hh]
    all_goals try subst hh
    all_goals
      simp_all [ServerDescriptor.toJson, toml_server_to_json, tomlOfDesc,
        tget, alookup, Toml.as_str, Toml.as_table, upsert, Option.orElse]

/-! ## Writer/reader composition -/

theorem mem_of_alookup {α : Type} (l : List (String × α)) (k : String) (v : α)
    (h : alookup l k = some v) : (k, v) ∈ l := by
  induction l with
  | nil => simp [alookup] at h
  | cons p rest ih =>
    by_cases hp : p.1 = k
    · simp only [alookup, if_pos hp] at h
      cases h
      subst hp
      exact List.mem_cons_self _ _
    · simp only [alookup, if_neg hp] at h
      exact List.mem_cons_of_mem _ (ih h)

theorem alookup_cleanLegacy_ne (doc : List (String × Toml)) (k : String)
    (hk : k ≠ "mcp") : alookup (cleanLegacy doc).1 k = alookup doc k := by
  unfold cleanLegacy
  match h : tget doc "mcp" with
  | none => simp
  | some mcp_item =>
    match h2 : mcp_item.as_table with
    | none => simp [h2]
    | some tbl =>
      by_cases hc : acontains tbl "servers"
      · simp [h2, hc, alookup_upsert]
        exact fun he => absurd he.symm hk
      · simp [h2, hc]

theorem cleanLegacy_no_servers (doc : List (String × Toml)) (v : Toml)
    (t : List (String × Toml)) (hv : alookup (cleanLegacy doc).1 "mcp" = some v)
    (ht : v.as_table = some t) : tget t "servers" = none := by
  unfold cleanLegacy at hv
  match h : tget doc "mcp" with
  | none =>
    simp only [h] at hv
    have h' : alookup doc "mcp" = none := h
    rw [h'] at hv
    cases hv
  | some mcp_item =>
    have h' : alookup doc "mcp" = some mcp_item := h
    match h2 : mcp_item.as_table with
    | none =>
      simp only [h, h2] at hv
      rw [h'] at hv
      cases hv
      rw [h2] at ht
      cases ht
    | some tbl =>
      by_cases hc : acontains tbl "servers"
      · simp only [h, h2, hc, if_true] at hv
        rw [alookup_upsert] at hv
        simp at hv
        subst hv
        simp only [Toml.as_table] at ht
        cases ht
        simp [tget, alookup_tremove]
      · have hcf : acontains tbl "servers" = false := by simpa using hc
        simp only [h, h2, hcf, Bool.false_eq_true, if_false] at hv
        rw [h'] at hv
        cases hv
        rw [h2] at ht
        cases ht
        simpa [acontains, tget, Option.isSome_iff_ne_none] using hcf

theorem readServersRoot_no_legacy (root : List (String × Toml))
    (h : ∀ v t, alookup root "mcp" = some v → v.as_table = some t →
      tget t "servers" = none) :
    readServersRoot root =
      match (tget root "mcp_servers").bind Toml.as_table with
      | some s => scanPrimary s [] []
      | none => ([], []) := by
  unfold readServersRoot
  match hm : tget root "mcp" with
  | none => simp [hm]
  | some mcp_val =>
    match ht : mcp_val.as_table with
    | none => simp [hm, ht]
    | some mcp_tbl =>
      have := h mcp_val mcp_tbl hm ht
      simp [hm, ht, this]

/-- Composition of the writer and the reader on any starting document: looking
up any identifier in the read-back map gives exactly the written descriptor. -/
theorem roundtrip_lookup (m : List (String × ServerDescriptor)) (doc : List (String × Toml))
    (hnd : (m.map Prod.fst).Nodup) (hval : ∀ p ∈ m, p.2.Valid) (id : String) :
    alookup (readServersRoot
        (setServersRoot (m.map (fun p => (p.1, p.2.toJson))) doc).1).1 id =
      (alookup m id).map ServerDescriptor.toJson := by
  set servers := m.map (fun p => (p.1, p.2.toJson)) with hserv
  by_cases hm : m = []
  · subst hm
    have hroot : (setServersRoot servers doc).1 =
        tremove (cleanLegacy doc).1 "mcp_servers" := by
      simp [hserv, setServersRoot]
    rw [hroot]
    rw [readServersRoot_no_legacy _ ?_]
    · have : tget (tremove (cleanLegacy doc).1 "mcp_servers") "mcp_servers" = none := by
        simp [tget, alookup_tremove]
      rw [this]
      simp [alookup]
    · intro v t hv ht
      have hv' : alookup (cleanLegacy doc).1 "mcp" = some v := by
        rw [show alookup (tremove (cleanLegacy doc).1 "mcp_servers") "mcp" =
            alookup (cleanLegacy doc).1 "mcp" by
          rw [alookup_tremove]
          simp] at hv
        exact hv
      exact cleanLegacy_no_servers doc v t hv' ht
  · have hse : servers.isEmpty = false := by
      simp [hserv, List.isEmpty_iff, hm]
    have hroot : (setServersRoot servers doc).1 =
        upsert (cleanLegacy doc).1 "mcp_servers"
          (Toml.table (buildServersTbl servers [] (cleanLegacy doc).2).1) := by
      simp [setServersRoot, hse]
    rw [hroot]
    rw [readServersRoot_no_legacy _ ?_]
    · have htg : tget (upsert (cleanLegacy doc).1 "mcp_servers"
          (Toml.table (buildServersTbl servers [] (cleanLegacy doc).2).1)) "mcp_servers" =
          some (Toml.table (buildServersTbl servers [] (cleanLegacy doc).2).1) := by
        simp [tget, alookup_upsert]
      rw [htg]
      show alookup (scanPrimary
        (buildServersTbl servers [] (cleanLegacy doc).2).1 [] []).1 id =
        (alookup m id).map ServerDescriptor.toJson
      have hndserv : (servers.map Prod.fst).Nodup := by
        simpa [hserv, List.map_map, Function.comp] using hnd
      have hndbuilt := keys_buildServersTbl_nodup servers [] (cleanLegacy doc).2 (by simp)
      rw [alookup_scanPrimary _ _ _ hndbuilt id]
      rw [alookup_buildServersTbl _ _ _ hndserv id]
      have hms : alookup servers id = (alookup m id).map ServerDescriptor.toJson := by
        rw [hserv]
        exact alookup_map_snd _ _ _
      match hma : alookup m id with
      | none =>
        have hs0 : alookup servers id = none := by rw [hms, hma]; rfl
        rw [hs0]
        rfl
      | some d =>
        have hdv : d.Valid := hval _ (mem_of_alookup _ _ _ hma)
        have hs0 : alookup servers id = some d.toJson := by rw [hms, hma]; rfl
        rw [hs0]
        simp only [write_desc d hdv]
        simp only [read_desc d hdv id]
        rfl
    · intro v t hv ht
      have hv' : alookup (cleanLegacy doc).1 "mcp" = some v := by
        rw [alookup_upsert] at hv
        simpa using hv
      exact cleanLegacy_no_servers doc v t hv' ht

/-! ## Claims -/

/-- C1: For every descriptor map containing only valid, non-blank entries
(type one of stdio/http/sse, stdio with non-empty command, http/sse with
non-empty url), `set_mcp_servers_map` followed by `read_mcp_servers_map`
yields a mapping equal to the original, the omit-when-empty fields (`args`,
`env`, `cwd`, `headers`) reading back as absent rather than erroring (the
descriptor encoding `ServerDescriptor.toJson` omits them exactly when empty
or blank, per §3 of the specification). -/
theorem spec_write_read_roundtrip (m : List (String × ServerDescriptor))
    (doc : List (String × Toml)) (hnd : (m.map Prod.fst).Nodup)
    (hval : ∀ p ∈ m, p.2.Valid) :
    ∃ doc' wlogs result rlogs,
      set_mcp_servers_map (m.map (fun p => (p.1, p.2.toJson))) doc = .ok (doc', wlogs) ∧
      read_mcp_servers_map doc' = .ok (result, rlogs) ∧
      ∀ id, alookup result id = (alookup m id).map ServerDescriptor.toJson :=
  ⟨_, _, _, _, rfl, rfl, fun id => roundtrip_lookup m doc hnd hval id⟩

/-- A concrete descriptor map exercising all three transport types. -/
def roundtripSample : List (String × ServerDescriptor) :=
  [("s", .stdio "node" ["server.js"] [("KEY", "value")] (some "/tmp")),
   ("h", .http "http://x" [("A", "1")]),
   ("e", .sse "http://y" [])]

theorem spec_write_read_roundtrip_witness :
    ((roundtripSample.map Prod.fst).Nodup ∧ ∀ p ∈ roundtripSample, p.2.Valid) ∧
    ∃ doc' wlogs result rlogs,
      set_mcp_servers_map (roundtripSample.map (fun p => (p.1, p.2.toJson)))
          [("other", Toml.bool true)] = .ok (doc', wlogs) ∧
      read_mcp_servers_map doc' = .ok (result, rlogs) ∧
      ∀ id, alookup result id =
        (alookup roundtripSample id).map ServerDescriptor.toJson :=
  ⟨⟨by decide, by decide⟩,
   spec_write_read_roundtrip roundtripSample [("other", Toml.bool true)]
     (by decide) (by decide)⟩

/-- C2: For every identifier present in both the primary location
(`[mcp_servers]`) and the legacy location (`[mcp.servers]`), the mapping
returned by the reader contains exactly the descriptor normalized from the
primary-location entry — the statement holds for an arbitrary legacy
sub-table, so the legacy entry contributes nothing and no fields merge. -/
theorem spec_primary_precedence (root prim : List (String × Toml)) (id : String)
    (e : Toml) (s : Json) (evs : List LogEvent)
    (hprim : (tget root "mcp_servers").bind Toml.as_table = some prim)
    (hnd : (prim.map Prod.fst).Nodup)
    (he : alookup prim id = some e)
    (hn : toml_server_to_json id e = (some s, evs)) :
    ∃ result rlogs, read_mcp_servers_map root = .ok (result, rlogs) ∧
      alookup result id = some s := by
  refine ⟨(readServersRoot root).1, (readServersRoot root).2, rfl, ?_⟩
  have hp : alookup (scanPrimary prim [] []).1 id = some s := by
    rw [alookup_scanPrimary _ _ _ hnd id]
    simp only [he]
    simp only [hn]
  unfold readServersRoot
  rw [hprim]
  match hm2 : tget root "mcp" with
  | none => exact hp
  | some mcp_val =>
    show alookup ((match mcp_val.as_table with
      | some mcp_tbl =>
        match (tget mcp_tbl "servers").bind Toml.as_table with
        | some servers_tbl =>
          scanLegacy servers_tbl (scanPrimary prim [] []).1 (scanPrimary prim [] []).2
        | none => scanPrimary prim [] []
      | none => scanPrimary prim [] [])).1 id = some s
    match ht2 : mcp_val.as_table with
    | none => exact hp
    | some mcp_tbl =>
      show alookup ((match (tget mcp_tbl "servers").bind Toml.as_table with
        | some servers_tbl =>
          scanLegacy servers_tbl (scanPrimary prim [] []).1 (scanPrimary prim [] []).2
        | none => scanPrimary prim [] [])).1 id = some s
      match hs2 : (tget mcp_tbl "servers").bind Toml.as_table with
      | none => exact hp
      | some servers_tbl => exact alookup_scanLegacy_of_some _ _ _ _ _ hp

theorem spec_primary_precedence_witness :
    ((tget [("mcp_servers", Toml.table [("a", Toml.table [("type", Toml.str "stdio"),
          ("command", Toml.str "x")])]),
        ("mcp", Toml.table [("servers", Toml.table [("a", Toml.table
          [("type", Toml.str "stdio"), ("command", Toml.str "y")])])])]
        "mcp_servers").bind Toml.as_table =
      some [("a", Toml.table [("type", Toml.str "stdio"), ("command", Toml.str "x")])]) ∧
    ∃ result rlogs,
      read_mcp_servers_map [("mcp_servers", Toml.table [("a", Toml.table
          [("type", Toml.str "stdio"), ("command", Toml.str "x")])]),
        ("mcp", Toml.table [("servers", Toml.table [("a", Toml.table
          [("type", Toml.str "stdio"), ("command", Toml.str "y")])])])] =
        .ok (result, rlogs) ∧
      alookup result "a" =
        some (Json.obj [("type", Json.str "stdio"), ("command", Json.str "x")]) :=
  ⟨rfl,
   spec_primary_precedence _ _ "a" _ _ [] rfl (by simp) rfl rfl⟩

/-- C7: Writing an empty descriptor map removes the top-level `mcp_servers`
key from the document entirely: afterwards the document has no primary server
table at all. -/
theorem spec_empty_write_removes_primary (doc : List (String × Toml)) :
    ∃ doc' wlogs, set_mcp_servers_map [] doc = .ok (doc', wlogs) ∧
      alookup doc' "mcp_servers" = none :=
  ⟨_, _, rfl, by simp [setServersRoot, alookup_tremove]⟩

/-! ## Cleanup-phase case lemmas -/

theorem cleanLegacy_of_no_mcp (doc : List (String × Toml))
    (h : tget doc "mcp" = none) : cleanLegacy doc = (doc, []) := by
  unfold cleanLegacy
  rw [h]

theorem cleanLegacy_of_non_table (doc : List (String × Toml)) (v : Toml)
    (h : tget doc "mcp" = some v) (ht : v.as_table = none) :
    cleanLegacy doc = (doc, []) := by
  unfold cleanLegacy
  rw [h]
  show (match v.as_table with
    | some tbl =>
      if acontains tbl "servers" then
        (upsert doc "mcp" (Toml.table (tremove tbl "servers")),
         [LogEvent.mk Severity.warn "检测到错误的 MCP 格式 [mcp.servers]，正在清理"])
      else (doc, [])
    | none => (doc, [])) = (doc, [])
  rw [ht]

theorem cleanLegacy_of_table_with_servers (doc : List (String × Toml))
    (t : List (String × Toml)) (h : tget doc "mcp" = some (Toml.table t))
    (hc : acontains t "servers" = true) :
    cleanLegacy doc =
      (upsert doc "mcp" (Toml.table (tremove t "servers")),
       [LogEvent.mk Severity.warn "检测到错误的 MCP 格式 [mcp.servers]，正在清理"]) := by
  unfold cleanLegacy
  rw [h]
  show (if acontains t "servers" then
      (upsert doc "mcp" (Toml.table (tremove t "servers")),
       [LogEvent.mk Severity.warn "检测到错误的 MCP 格式 [mcp.servers]，正在清理"])
    else (doc, [])) = _
  rw [hc]
  rfl

theorem cleanLegacy_of_table_no_servers (doc : List (String × Toml))
    (t : List (String × Toml)) (h : tget doc "mcp" = some (Toml.table t))
    (hc : acontains t "servers" = false) :
    cleanLegacy doc = (doc, []) := by
  unfold cleanLegacy
  rw [h]
  show (if acontains t "servers" then
      (upsert doc "mcp" (Toml.table (tremove t "servers")),
       [LogEvent.mk Severity.warn "检测到错误的 MCP 格式 [mcp.servers]，正在清理"])
    else (doc, [])) = _
  rw [hc]
  rfl

theorem setServersRoot_of_empty (servers : List (String × Json))
    (doc : List (String × Toml)) (h : servers.isEmpty = true) :
    setServersRoot servers doc =
      (tremove (cleanLegacy doc).1 "mcp_servers", (cleanLegacy doc).2) := by
  unfold setServersRoot
  rw [h]
  rfl

theorem setServersRoot_of_nonempty (servers : List (String × Json))
    (doc : List (String × Toml)) (h : servers.isEmpty = false) :
    setServersRoot servers doc =
      (upsert (cleanLegacy doc).1 "mcp_servers"
        (Toml.table (buildServersTbl servers [] (cleanLegacy doc).2).1),
       (buildServersTbl servers [] (cleanLegacy doc).2).2) := by
  unfold setServersRoot
  rw [h]
  rfl

theorem alookup_setServersRoot_ne (servers : List (String × Json))
    (doc : List (String × Toml)) (k : String) (hk : k ≠ "mcp_servers") :
    alookup (setServersRoot servers doc).1 k = alookup (cleanLegacy doc).1 k := by
  match h : servers.isEmpty with
  | true =>
    rw [setServersRoot_of_empty _ _ h]
    show alookup (tremove (cleanLegacy doc).1 "mcp_servers") k = _
    rw [alookup_tremove]
    rw [if_neg (fun he => hk he.symm)]
  | false =>
    rw [setServersRoot_of_nonempty _ _ h]
    show alookup (upsert (cleanLegacy doc).1 "mcp_servers" _) k = _
    rw [alookup_upsert]
    rw [if_neg (fun he => hk he.symm)]

/-- C3: For every input descriptor map and every existing parsed document,
`set_mcp_servers_map` leaves every top-level key other than `mcp_servers` and
`mcp` untouched, leaves a non-table `mcp` item untouched, and inside a
table-valued `mcp` item changes nothing but the removal of its `servers` key. -/
theorem spec_write_preserves_unrelated (servers : List (String × Json))
    (doc : List (String × Toml)) :
    ∃ doc' wlogs, set_mcp_servers_map servers doc = .ok (doc', wlogs) ∧
      (∀ k, k ≠ "mcp_servers" → k ≠ "mcp" → alookup doc' k = alookup doc k) ∧
      (∀ v, alookup doc "mcp" = some v → v.as_table = none →
        alookup doc' "mcp" = some v) ∧
      (∀ t, alookup doc "mcp" = some (Toml.table t) →
        ∃ t', alookup doc' "mcp" = some (Toml.table t') ∧
          ∀ k, k ≠ "servers" → alookup t' k = alookup t k) := by
  refine ⟨(setServersRoot servers doc).1, (setServersRoot servers doc).2, rfl,
    ?_, ?_, ?_⟩
  · intro k hk1 hk2
    rw [alookup_setServersRoot_ne _ _ _ hk1]
    exact alookup_cleanLegacy_ne _ _ hk2
  · intro v hv ht
    rw [alookup_setServersRoot_ne _ _ _ (by decide)]
    rw [cleanLegacy_of_non_table doc v hv ht]
    exact hv
  · intro t ht
    rw [alookup_setServersRoot_ne _ _ _ (by decide)]
    match hc : acontains t "servers" with
    | true =>
      refine ⟨tremove t "servers", ?_, ?_⟩
      · rw [cleanLegacy_of_table_with_servers doc t ht hc]
        show alookup (upsert doc "mcp" _) "mcp" = _
        rw [alookup_upsert]
        rfl
      · intro k hk
        rw [alookup_tremove]
        rw [if_neg (fun he => hk he.symm)]
    | false =>
      refine ⟨t, ?_, fun k hk => rfl⟩
      rw [cleanLegacy_of_table_no_servers doc t ht hc]
      exact ht

theorem spec_write_preserves_unrelated_witness :
    ∃ doc' wlogs,
      set_mcp_servers_map [("s", Json.obj [("type", Json.str "stdio"),
          ("command", Json.str "x")])]
        [("other", Toml.bool true),
         ("mcp", Toml.table [("keep", Toml.int 7),
            ("servers", Toml.table [("a", Toml.table [])])])] = .ok (doc', wlogs) ∧
      (∀ k, k ≠ "mcp_servers" → k ≠ "mcp" →
        alookup doc' k = alookup [("other", Toml.bool true),
          ("mcp", Toml.table [("keep", Toml.int 7),
            ("servers", Toml.table [("a", Toml.table [])])])] k) ∧
      (∀ v, alookup [("other", Toml.bool true),
          ("mcp", Toml.table [("keep", Toml.int 7),
            ("servers", Toml.table [("a", Toml.table [])])])] "mcp" = some v →
        v.as_table = none → alookup doc' "mcp" = some v) ∧
      (∀ t, alookup [("other", Toml.bool true),
          ("mcp", Toml.table [("keep", Toml.int 7),
            ("servers", Toml.table [("a", Toml.table [])])])] "mcp" =
          some (Toml.table t) →
        ∃ t', alookup doc' "mcp" = some (Toml.table t') ∧
          ∀ k, k ≠ "servers" → alookup t' k = alookup t k) :=
  spec_write_preserves_unrelated _ _

theorem alookup_of_mem_nodup {α : Type} (l : List (String × α)) (k : String) (v : α)
    (hnd : (l.map Prod.fst).Nodup) (hm : (k, v) ∈ l) : alookup l k = some v := by
  induction l with
  | nil => simp at hm
  | cons p rest ih =>
    simp only [List.map_cons, List.nodup_cons] at hnd
    rcases List.mem_cons.mp hm with hhead | htail
    · subst hhead
      simp [alookup]
    · have hk : p.1 ≠ k := by
        intro he
        exact hnd.1 (he ▸ List.mem_map_of_mem Prod.fst htail)
      simp only [alookup, if_neg hk]
      exact ih hnd.2 htail

/-- C4: If the write-direction normalizer fails on some entry of a non-empty
map (unsupported type), that entry alone is excluded from the persisted
`mcp_servers` table, a diagnostic at error severity is emitted, every other
successfully normalized entry is still persisted, and the overall write call
returns success rather than an error. -/
theorem spec_write_partial_failure (servers : List (String × Json))
    (doc : List (String × Toml)) (id : String) (spec : Json) (e : String)
    (hnd : (servers.map Prod.fst).Nodup) (hmem : (id, spec) ∈ servers)
    (herr : json_server_to_toml_table spec = .error e) :
    ∃ doc' wlogs tbl,
      set_mcp_servers_map servers doc = .ok (doc', wlogs) ∧
      alookup doc' "mcp_servers" = some (Toml.table tbl) ∧
      alookup tbl id = none ∧
      (∃ ev ∈ wlogs, ev.sev = Severity.error) ∧
      (∀ id' spec' t', (id', spec') ∈ servers → id' ≠ id →
        json_server_to_toml_table spec' = .ok t' →
        alookup tbl id' = some (Toml.table t')) := by
  have hne : servers.isEmpty = false := by
    cases servers with
    | nil => simp at hmem
    | cons p rest => rfl
  have hset := setServersRoot_of_nonempty servers doc hne
  refine ⟨(setServersRoot servers doc).1, (setServersRoot servers doc).2,
    (buildServersTbl servers [] (cleanLegacy doc).2).1, rfl, ?_, ?_, ?_, ?_⟩
  · rw [hset]
    show alookup (upsert _ "mcp_servers" _) "mcp_servers" = _
    rw [alookup_upsert]
    rfl
  · rw [alookup_buildServersTbl _ _ _ hnd id]
    rw [alookup_of_mem_nodup _ _ _ hnd hmem]
    simp only [herr]
    rfl
  · rw [hset]
    exact buildServersTbl_error_log servers [] (cleanLegacy doc).2 id spec e hmem herr
  · intro id' spec' t' hmem' hne' hok
    rw [alookup_buildServersTbl _ _ _ hnd id']
    rw [alookup_of_mem_nodup _ _ _ hnd hmem']
    simp only [hok]

theorem spec_write_partial_failure_witness :
    (([("bad", Json.obj [("type", Json.str "weird")]),
       ("good", Json.obj [("type", Json.str "stdio"), ("command", Json.str "node")])].map
        (Prod.fst (β := Json))).Nodup ∧
      ("bad", Json.obj [("type", Json.str "weird")]) ∈
        [("bad", Json.obj [("type", Json.str "weird")]),
         ("good", Json.obj [("type", Json.str "stdio"), ("command", Json.str "node")])] ∧
      json_server_to_toml_table (Json.obj [("type", Json.str "weird")]) =
        .error "不支持的服务器类型: weird") ∧
    ∃ doc' wlogs tbl,
      set_mcp_servers_map
        [("bad", Json.obj [("type", Json.str "weird")]),
         ("good", Json.obj [("type", Json.str "stdio"), ("command", Json.str "node")])]
        [] = .ok (doc', wlogs) ∧
      alookup doc' "mcp_servers" = some (Toml.table tbl) ∧
      alookup tbl "bad" = none ∧
      (∃ ev ∈ wlogs, ev.sev = Severity.error) ∧
      (∀ id' spec' t',
        (id', spec') ∈
          [("bad", Json.obj [("type", Json.str "weird")]),
           ("good", Json.obj [("type", Json.str "stdio"), ("command", Json.str "node")])] →
        id' ≠ "bad" → json_server_to_toml_table spec' = .ok t' →
        alookup tbl id' = some (Toml.table t')) :=
  ⟨⟨by decide, by simp, rfl⟩,
   spec_write_partial_failure _ [] "bad" (Json.obj [("type", Json.str "weird")])
     "不支持的服务器类型: weird" (by decide) (by simp) rfl⟩

theorem scanPrimary_append (l1 l2 : List (String × Toml)) (acc : List (String × Json))
    (logs : List LogEvent) :
    scanPrimary (l1 ++ l2) acc logs =
      scanPrimary l2 (scanPrimary l1 acc logs).1 (scanPrimary l1 acc logs).2 := by
  induction l1 generalizing acc logs with
  | nil => rfl
  | cons p rest ih =>
    obtain ⟨pk, v⟩ := p
    match hn : toml_server_to_json pk v with
    | (some server, evs) =>
      simp only [List.cons_append, scanPrimary, hn]
      exact ih _ _
    | (none, evs) =>
      simp only [List.cons_append, scanPrimary, hn]
      exact ih _ _

theorem scanLegacy_fst_logs (l : List (String × Toml)) (acc : List (String × Json))
    (logs logs' : List LogEvent) :
    (scanLegacy l acc logs).1 = (scanLegacy l acc logs').1 := by
  induction l generalizing acc logs logs' with
  | nil => rfl
  | cons p rest ih =>
    obtain ⟨pk, v⟩ := p
    by_cases hc : acontains acc pk
    · simp only [scanLegacy, hc, if_true]
      exact ih _ _ _
    · have hcf : acontains acc pk = false := by simpa using hc
      match hn : toml_server_to_json pk v with
      | (some server, evs) =>
        simp only [scanLegacy, hcf, Bool.false_eq_true, if_false, hn]
        exact ih _ _ _
      | (none, evs) =>
        simp only [scanLegacy, hcf, Bool.false_eq_true, if_false, hn]
        exact ih _ _ _

theorem scanLegacy_append (l1 l2 : List (String × Toml)) (acc : List (String × Json))
    (logs : List LogEvent) :
    scanLegacy (l1 ++ l2) acc logs =
      scanLegacy l2 (scanLegacy l1 acc logs).1 (scanLegacy l1 acc logs).2 := by
  induction l1 generalizing acc logs with
  | nil => rfl
  | cons p rest ih =>
    obtain ⟨pk, v⟩ := p
    by_cases hc : acontains acc pk
    · simp only [List.cons_append, scanLegacy, hc, if_true]
      exact ih _ _
    · have hcf : acontains acc pk = false := by simpa using hc
      match hn : toml_server_to_json pk v with
      | (some server, evs) =>
        simp only [List.cons_append, scanLegacy, hcf, Bool.false_eq_true, if_false, hn]
        exact ih _ _
      | (none, evs) =>
        simp only [List.cons_append, scanLegacy, hcf, Bool.false_eq_true, if_false, hn]
        exact ih _ _

theorem scanPrimary_skip (pre suf : List (String × Toml)) (id : String) (v : Toml)
    (acc : List (String × Json)) (logs : List LogEvent)
    (h : (toml_server_to_json id v).1 = none) :
    (scanPrimary (pre ++ (id, v) :: suf) acc logs).1 =
      (scanPrimary (pre ++ suf) acc logs).1 := by
  rw [scanPrimary_append, scanPrimary_append]
  match hn : toml_server_to_json id v with
  | (some s, evs) => rw [hn] at h; cases h
  | (none, evs) =>
    simp only [scanPrimary, hn]
    exact scanPrimary_fst_logs _ _ _ _

theorem scanLegacy_skip (pre suf : List (String × Toml)) (id : String) (v : Toml)
    (acc : List (String × Json)) (logs : List LogEvent)
    (h : (toml_server_to_json id v).1 = none) :
    (scanLegacy (pre ++ (id, v) :: suf) acc logs).1 =
      (scanLegacy (pre ++ suf) acc logs).1 := by
  rw [scanLegacy_append, scanLegacy_append]
  by_cases hc : acontains (scanLegacy pre acc logs).1 id
  · simp only [scanLegacy, hc, if_true]
  · have hcf : acontains (scanLegacy pre acc logs).1 id = false := by simpa using hc
    match hn : toml_server_to_json id v with
    | (some s, evs) => rw [hn] at h; cases h
    | (none, evs) =>
      simp only [scanLegacy, hcf, Bool.false_eq_true, if_false, hn]
      exact scanLegacy_fst_logs _ _ _ _

/-- C6: An entry (in either location) whose `type` field is a string other
than `stdio`, `http`, `sse` yields no descriptor: the normalizer returns
`none` together with a single warning-severity diagnostic, the entry
contributes nothing to the scan of either location, and the overall read
still returns `Ok`. -/
theorem spec_unknown_type_dropped_on_read (id typ : String)
    (tbl : List (String × Toml))
    (h1 : tget tbl "type" = some (Toml.str typ))
    (h2 : typ ≠ "stdio") (h3 : typ ≠ "http") (h4 : typ ≠ "sse") :
    toml_server_to_json id (Toml.table tbl) =
      (none, [⟨Severity.warn,
        "跳过未知类型 '" ++ typ ++ "' 的 Codex MCP 项 '" ++ id ++ "'"⟩]) ∧
    (∀ root, (read_mcp_servers_map root).isOk = true) ∧
    (∀ pre suf acc logs,
      (scanPrimary (pre ++ (id, Toml.table tbl) :: suf) acc logs).1 =
        (scanPrimary (pre ++ suf) acc logs).1) ∧
    (∀ pre suf acc logs,
      (scanLegacy (pre ++ (id, Toml.table tbl) :: suf) acc logs).1 =
        (scanLegacy (pre ++ suf) acc logs).1) := by
  have hn : toml_server_to_json id (Toml.table tbl) =
      (none, [⟨Severity.warn,
        "跳过未知类型 '" ++ typ ++ "' 的 Codex MCP 项 '" ++ id ++ "'"⟩]) := by
    simp [toml_server_to_json, Toml.as_table, h1, Toml.as_str, h2, h3, h4]
  refine ⟨hn, fun root => rfl, ?_, ?_⟩
  · intro pre suf acc logs
    exact scanPrimary_skip pre suf id _ acc logs (by rw [hn])
  · intro pre suf acc logs
    exact scanLegacy_skip pre suf id _ acc logs (by rw [hn])

theorem spec_unknown_type_dropped_on_read_witness :
    (tget [("type", Toml.str "weird")] "type" = some (Toml.str "weird") ∧
      ("weird" : String) ≠ "stdio") ∧
    (toml_server_to_json "z" (Toml.table [("type", Toml.str "weird")]) =
      (none, [⟨Severity.warn, "跳过未知类型 'weird' 的 Codex MCP 项 'z'"⟩]) ∧
    (∀ root, (read_mcp_servers_map root).isOk = true) ∧
    (∀ pre suf acc logs,
      (scanPrimary (pre ++ ("z", Toml.table [("type", Toml.str "weird")]) :: suf) acc logs).1 =
        (scanPrimary (pre ++ suf) acc logs).1) ∧
    (∀ pre suf acc logs,
      (scanLegacy (pre ++ ("z", Toml.table [("type", Toml.str "weird")]) :: suf) acc logs).1 =
        (scanLegacy (pre ++ suf) acc logs).1)) :=
  ⟨⟨rfl, by decide⟩,
   spec_unknown_type_dropped_on_read "z" "weird" [("type", Toml.str "weird")]
     rfl (by decide) (by decide) (by decide)⟩

/-- C9: An entry (in either location) whose value is not a table yields no
descriptor and no diagnostic at all: the normalizer returns `(none, [])`, the
scans of both locations are entirely unchanged (result and logs), and the
overall read still returns `Ok` — an exclusion path the specification does
not mention. -/
theorem spec_non_table_entry_skipped_silently (id : String) (v : Toml)
    (hv : v.as_table = none) :
    toml_server_to_json id v = (none, []) ∧
    (∀ root, (read_mcp_servers_map root).isOk = true) ∧
    (∀ pre suf acc logs,
      scanPrimary (pre ++ (id, v) :: suf) acc logs = scanPrimary (pre ++ suf) acc logs) ∧
    (∀ pre suf acc logs,
      scanLegacy (pre ++ (id, v) :: suf) acc logs = scanLegacy (pre ++ suf) acc logs) := by
  have hn : toml_server_to_json id v = (none, []) := by
    unfold toml_server_to_json
    rw [hv]
  refine ⟨hn, fun root => rfl, ?_, ?_⟩
  · intro pre suf acc logs
    rw [scanPrimary_append, scanPrimary_append]
    simp only [scanPrimary, hn, List.append_nil]
  · intro pre suf acc logs
    rw [scanLegacy_append, scanLegacy_append]
    by_cases hc : acontains (scanLegacy pre acc logs).1 id
    · simp only [scanLegacy, hc, if_true]
    · have hcf : acontains (scanLegacy pre acc logs).1 id = false := by simpa using hc
      simp only [scanLegacy, hcf, Bool.false_eq_true, if_false, hn, List.append_nil]

theorem spec_non_table_entry_skipped_silently_witness :
    ((Toml.str "hi").as_table = none) ∧
    (toml_server_to_json "z" (Toml.str "hi") = (none, []) ∧
    (∀ root, (read_mcp_servers_map root).isOk = true) ∧
    (∀ pre suf acc logs,
      scanPrimary (pre ++ ("z", Toml.str "hi") :: suf) acc logs =
        scanPrimary (pre ++ suf) acc logs) ∧
    (∀ pre suf acc logs,
      scanLegacy (pre ++ ("z", Toml.str "hi") :: suf) acc logs =
        scanLegacy (pre ++ suf) acc logs)) :=
  ⟨rfl, spec_non_table_entry_skipped_silently "z" (Toml.str "hi") rfl⟩

theorem alookup_ite {α : Type} (c : Prop) [Decidable c]
    (a b : List (String × α)) (k : String) :
    alookup (if c then a else b) k = if c then alookup a k else alookup b k := by
  split <;> rfl

/-- C10: A descriptor whose `type` field is absent or not a string is
defaulted to `stdio` by the write-direction normalizer and persists
successfully; the per-entry validation error occurs only when `type` is
present as a string outside the three known values. -/
theorem spec_write_type_default_stdio (spec : Json) :
    ((Json.get spec "type" = none ∨
        ∃ v, Json.get spec "type" = some v ∧ Json.as_str v = none) →
      ∃ t, json_server_to_toml_table spec = .ok t ∧
        tget t "type" = some (Toml.str "stdio")) ∧
    (∀ e, json_server_to_toml_table spec = .error e →
      ∃ s, (Json.get spec "type").bind Json.as_str = some s ∧
        s ≠ "stdio" ∧ s ≠ "http" ∧ s ≠ "sse") := by
  constructor
  · intro h
    have htyp : ((Json.get spec "type").bind Json.as_str).getD "stdio" = "stdio" := by
      rcases h with h | ⟨v, hv, hs⟩
      · rw [h]
        rfl
      · rw [hv]
        show (Json.as_str v).getD "stdio" = _
        rw [hs]
        rfl
    unfold json_server_to_toml_table
    rw [htyp]
    rw [if_pos rfl]
    refine ⟨_, rfl, ?_⟩
    repeat' split
    all_goals simp [tget, alookup_ite, alookup_upsert, alookup]
  · intro e herr
    unfold json_server_to_toml_table at herr
    match hts : (Json.get spec "type").bind Json.as_str with
    | none => simp [hts] at herr
    | some s =>
      by_cases h1 : s = "stdio"
      · subst h1
        simp [hts] at herr
      · by_cases h2 : s = "http"
        · subst h2
          simp [hts] at herr
        · by_cases h3 : s = "sse"
          · subst h3
            simp [hts] at herr
          · exact ⟨s, rfl, h1, h2, h3⟩

theorem spec_write_type_default_stdio_witness :
    ((Json.get (Json.obj [("type", Json.num 3), ("command", Json.str "c")]) "type" = none ∨
      ∃ v, Json.get (Json.obj [("type", Json.num 3), ("command", Json.str "c")]) "type" =
          some v ∧ Json.as_str v = none) →
      ∃ t, json_server_to_toml_table
          (Json.obj [("type", Json.num 3), ("command", Json.str "c")]) = .ok t ∧
        tget t "type" = some (Toml.str "stdio")) ∧
    (∀ e, json_server_to_toml_table
        (Json.obj [("type", Json.num 3), ("command", Json.str "c")]) = .error e →
      ∃ s, (Json.get (Json.obj [("type", Json.num 3), ("command", Json.str "c")])
          "type").bind Json.as_str = some s ∧ s ≠ "stdio" ∧ s ≠ "http" ∧ s ≠ "sse") :=
  spec_write_type_default_stdio (Json.obj [("type", Json.num 3), ("command", Json.str "c")])

/-- C8: For every descriptor accepted by the write-direction normalizer: a
stdio-typed descriptor always yields a `command` field (the descriptor's
command string, defaulting to the empty string — never omitted) and yields
`args`/`cwd`/`env` exactly when they are non-empty (`cwd` non-blank after
trimming); an http/sse-typed descriptor always yields a `url` field (empty
string when unset) and yields `http_headers` exactly when the converted
headers mapping is non-empty. -/
theorem spec_write_table_shape (spec : Json) :
    (((Json.get spec "type").bind Json.as_str).getD "stdio" = "stdio" →
      ∃ t, json_server_to_toml_table spec = .ok t ∧
        tget t "command" =
          some (Toml.str (((Json.get spec "command").bind Json.as_str).getD "")) ∧
        tget t "args" =
          (match (Json.get spec "args").bind Json.as_array with
           | some args =>
             if ((args.filterMap Json.as_str).map Toml.str).isEmpty then none
             else some (Toml.arr ((args.filterMap Json.as_str).map Toml.str))
           | none => none) ∧
        tget t "cwd" =
          (match (Json.get spec "cwd").bind Json.as_str with
           | some c => if strTrim c = "" then none else some (Toml.str c)
           | none => none) ∧
        tget t "env" =
          (match (Json.get spec "env").bind Json.as_object with
           | some env =>
             if (buildTbl (fun v => (Json.as_str v).map Toml.str) env []).isEmpty then none
             else some (Toml.table (buildTbl (fun v => (Json.as_str v).map Toml.str) env []))
           | none => none)) ∧
    (∀ typ, ((Json.get spec "type").bind Json.as_str).getD "stdio" = typ →
      (typ = "http" ∨ typ = "sse") →
      ∃ t, json_server_to_toml_table spec = .ok t ∧
        tget t "url" =
          some (Toml.str (((Json.get spec "url").bind Json.as_str).getD "")) ∧
        tget t "http_headers" =
          (match (Json.get spec "headers").bind Json.as_object with
           | some hs =>
             if (buildTbl (fun v => (Json.as_str v).map Toml.str) hs []).isEmpty then none
             else some (Toml.table (buildTbl (fun v => (Json.as_str v).map Toml.str) hs []))
           | none => none)) := by
  constructor
  · intro htyp
    unfold json_server_to_toml_table
    rw [htyp, if_pos rfl]
    refine ⟨_, rfl, ?_, ?_, ?_, ?_⟩
    all_goals repeat' split
    all_goals simp_all [tget, alookup_ite, alookup_upsert, alookup]
  · intro typ htyp hor
    rcases hor with h | h
    · subst h
      unfold json_server_to_toml_table
      rw [htyp]
      rw [if_neg (by decide), if_pos (by decide)]
      refine ⟨_, rfl, ?_, ?_⟩
      all_goals repeat' split
      all_goals simp_all [tget, alookup_ite, alookup_upsert, alookup]
    · subst h
      unfold json_server_to_toml_table
      rw [htyp]
      rw [if_neg (by decide), if_pos (by decide)]
      refine ⟨_, rfl, ?_, ?_⟩
      all_goals repeat' split
      all_goals simp_all [tget, alookup_ite, alookup_upsert, alookup]

theorem spec_write_table_shape_witness :
    (((Json.get (Json.obj [("type", Json.str "stdio"), ("command", Json.str "node"),
          ("args", Json.arr []), ("cwd", Json.str "  "),
          ("env", Json.obj [("K", Json.str "v")])]) "type").bind
        Json.as_str).getD "stdio" = "stdio") ∧
    ∃ t, json_server_to_toml_table
        (Json.obj [("type", Json.str "stdio"), ("command", Json.str "node"),
          ("args", Json.arr []), ("cwd", Json.str "  "),
          ("env", Json.obj [("K", Json.str "v")])]) = .ok t ∧
      tget t "command" =
        some (Toml.str (((Json.get (Json.obj [("type", Json.str "stdio"),
          ("command", Json.str "node"), ("args", Json.arr []), ("cwd", Json.str "  "),
          ("env", Json.obj [("K", Json.str "v")])]) "command").bind Json.as_str).getD "")) ∧
      tget t "args" =
        (match (Json.get (Json.obj [("type", Json.str "stdio"),
            ("command", Json.str "node"), ("args", Json.arr []), ("cwd", Json.str "  "),
            ("env", Json.obj [("K", Json.str "v")])]) "args").bind Json.as_array with
         | some args =>
           if ((args.filterMap Json.as_str).map Toml.str).isEmpty then none
           else some (Toml.arr ((args.filterMap Json.as_str).map Toml.str))
         | none => none) ∧
      tget t "cwd" =
        (match (Json.get (Json.obj [("type", Json.str "stdio"),
            ("command", Json.str "node"), ("args", Json.arr []), ("cwd", Json.str "  "),
            ("env", Json.obj [("K", Json.str "v")])]) "cwd").bind Json.as_str with
         | some c => if strTrim c = "" then none else some (Toml.str c)
         | none => none) ∧
      tget t "env" =
        (match (Json.get (Json.obj [("type", Json.str "stdio"),
            ("command", Json.str "node"), ("args", Json.arr []), ("cwd", Json.str "  "),
            ("env", Json.obj [("K", Json.str "v")])]) "env").bind Json.as_object with
         | some env =>
           if (buildTbl (fun v => (Json.as_str v).map Toml.str) env []).isEmpty then none
           else some (Toml.table (buildTbl (fun v => (Json.as_str v).map Toml.str) env []))
         | none => none) :=
  ⟨rfl,
   (spec_write_table_shape (Json.obj [("type", Json.str "stdio"),
      ("command", Json.str "node"), ("args", Json.arr []), ("cwd", Json.str "  "),
      ("env", Json.obj [("K", Json.str "v")])])).1 rfl⟩

theorem filterMap_hdr_toml (hh : List (String × Toml)) :
    hh.filterMap (fun p =>
        (((fun v => (Toml.as_str v).map Json.str) p.2)).map (fun b => (p.1, b))) =
      hh.filterMap (fun p => (Toml.as_str p.2).map (fun s => (p.1, Json.str s))) :=
  List.filterMap_congr (fun p _ => by cases h : Toml.as_str p.2 <;> simp [h])

theorem filterMap_hdr_json (hs : List (String × Json)) :
    hs.filterMap (fun p =>
        (((fun v => (Json.as_str v).map Toml.str) p.2)).map (fun b => (p.1, b))) =
      hs.filterMap (fun p => (Json.as_str p.2).map (fun s => (p.1, Toml.str s))) :=
  List.filterMap_congr (fun p _ => by cases h : Json.as_str p.2 <;> simp [h])


theorem read_headers_helper (id typ : String) (h : typ = "http" ∨ typ = "sse")
    (tbl hh : List (String × Toml))
    (h1 : tget tbl "type" = some (Toml.str typ))
    (hhd : ((tget tbl "http_headers").bind Toml.as_table).orElse
      (fun _ => (tget tbl "headers").bind Toml.as_table) = some hh)
    (hnd : (hh.map Prod.fst).Nodup) :
    ∃ spec, (toml_server_to_json id (Toml.table tbl)).1 = some (Json.obj spec) ∧
      alookup spec "headers" =
        (if (hh.filterMap (fun p => (Toml.as_str p.2).map
            (fun s => (p.1, Json.str s)))).isEmpty
         then none
         else some (Json.obj (hh.filterMap
           (fun p => (Toml.as_str p.2).map (fun s => (p.1, Json.str s)))))) := by
  have htne : ¬ typ = "stdio" := by
    rcases h with h | h <;> subst h <;> decide
  have hbt := buildTbl_eq_filterMap (fun v => (Toml.as_str v).map Json.str) hh [] hnd
    (by simp)
  rw [List.nil_append, filterMap_hdr_toml] at hbt
  have htypc : ((tget tbl "type").bind Toml.as_str).getD "stdio" = typ := by
    rw [h1]
    rfl
  unfold toml_server_to_json
  rw [show (Toml.table tbl).as_table = some tbl from rfl]
  split
  case h_1 heq => cases heq
  case h_2 entry_tbl heq =>
    injection heq with heq2
    subst heq2
    rw [htypc]
    rw [if_neg htne, if_pos h]
    rw [hhd]
    split
    next url hurl =>
      refine ⟨_, rfl, ?_⟩
      show alookup (if (buildTbl (fun v => (Toml.as_str v).map Json.str) hh []).isEmpty = true
          then upsert [("type", Json.str typ)] "url" (Json.str url)
          else upsert (upsert [("type", Json.str typ)] "url" (Json.str url)) "headers"
            (Json.obj (buildTbl (fun v => (Toml.as_str v).map Json.str) hh []))) "headers" = _
      rw [hbt]
      by_cases hie : (hh.filterMap (fun p => (Toml.as_str p.2).map
          (fun s => (p.1, Json.str s)))).isEmpty = true
      · rw [if_pos hie, if_pos hie]
        simp [upsert, alookup]
      · rw [if_neg hie, if_neg hie]
        rw [alookup_upsert]
        rw [if_pos rfl]
    next hurl =>
      refine ⟨_, rfl, ?_⟩
      show alookup (if (buildTbl (fun v => (Toml.as_str v).map Json.str) hh []).isEmpty = true
          then [("type", Json.str typ)]
          else upsert [("type", Json.str typ)] "headers"
            (Json.obj (buildTbl (fun v => (Toml.as_str v).map Json.str) hh []))) "headers" = _
      rw [hbt]
      by_cases hie : (hh.filterMap (fun p => (Toml.as_str p.2).map
          (fun s => (p.1, Json.str s)))).isEmpty = true
      · rw [if_pos hie, if_pos hie]
        simp [alookup]
      · rw [if_neg hie, if_neg hie]
        rw [alookup_upsert]
        rw [if_pos rfl]

theorem write_headers_helper (typ : String) (h : typ = "http" ∨ typ = "sse")
    (spec : Json) (hs : List (String × Json))
    (h1 : Json.get spec "type" = some (Json.str typ))
    (h2 : Json.get spec "headers" = some (Json.obj hs))
    (hnd : (hs.map Prod.fst).Nodup) :
    ∃ t, json_server_to_toml_table spec = .ok t ∧
      tget t "http_headers" =
        (if (hs.filterMap (fun p => (Json.as_str p.2).map
            (fun s => (p.1, Toml.str s)))).isEmpty
         then none
         else some (Toml.table (hs.filterMap
           (fun p => (Json.as_str p.2).map (fun s => (p.1, Toml.str s)))))) ∧
      tget t "headers" = none := by
  have htne : ¬ typ = "stdio" := by
    rcases h with h | h <;> subst h <;> decide
  have hbt := buildTbl_eq_filterMap (fun v => (Json.as_str v).map Toml.str) hs [] hnd
    (by simp)
  rw [List.nil_append, filterMap_hdr_json] at hbt
  have htypc : ((Json.get spec "type").bind Json.as_str).getD "stdio" = typ := by
    rw [h1]
    rfl
  have hobj : (Json.get spec "headers").bind Json.as_object = some hs := by
    rw [h2]
    rfl
  unfold json_server_to_toml_table
  rw [htypc, if_neg htne, if_pos h]
  rw [hobj]
  refine ⟨_, rfl, ?_, ?_⟩
  · show tget (if (buildTbl (fun v => (Json.as_str v).map Toml.str) hs []).isEmpty = true
        then upsert [("type", Toml.str typ)] "url"
          (Toml.str (((Json.get spec "url").bind Json.as_str).getD ""))
        else upsert (upsert [("type", Toml.str typ)] "url"
          (Toml.str (((Json.get spec "url").bind Json.as_str).getD ""))) "http_headers"
          (Toml.table (buildTbl (fun v => (Json.as_str v).map Toml.str) hs [])))
        "http_headers" = _
    simp only [tget]
    rw [hbt]
    by_cases hie : (hs.filterMap (fun p => (Json.as_str p.2).map
        (fun s => (p.1, Toml.str s)))).isEmpty = true
    · rw [if_pos hie, if_pos hie]
      simp [upsert, alookup]
    · rw [if_neg hie, if_neg hie]
      rw [alookup_upsert]
      rw [if_pos rfl]
  · show tget (if (buildTbl (fun v => (Json.as_str v).map Toml.str) hs []).isEmpty = true
        then upsert [("type", Toml.str typ)] "url"
          (Toml.str (((Json.get spec "url").bind Json.as_str).getD ""))
        else upsert (upsert [("type", Toml.str typ)] "url"
          (Toml.str (((Json.get spec "url").bind Json.as_str).getD ""))) "http_headers"
          (Toml.table (buildTbl (fun v => (Json.as_str v).map Toml.str) hs [])))
        "headers" = _
    simp only [tget]
    by_cases hie : ((buildTbl (fun v => (Json.as_str v).map Toml.str) hs [])).isEmpty = true
    · rw [if_pos hie]
      simp [upsert, alookup]
    · rw [if_neg hie]
      simp [upsert, alookup, alookup_upsert]

/-- C5: For every http/sse entry read, the `headers` mapping is sourced by
first checking the field name `http_headers` and falling back to `headers`
only if the first is absent, with non-string values filtered out and the
result stored only when non-empty; for every http/sse descriptor written, a
non-empty headers mapping is always persisted under the single canonical
field name `http_headers` (and never under `headers`). -/
theorem spec_headers_dual_read_canonical_write (id typ : String)
    (htyp : typ = "http" ∨ typ = "sse") :
    (∀ tbl hh, tget tbl "type" = some (Toml.str typ) →
      (tget tbl "http_headers").bind Toml.as_table = some hh →
      (hh.map Prod.fst).Nodup →
      ∃ spec, (toml_server_to_json id (Toml.table tbl)).1 = some (Json.obj spec) ∧
        alookup spec "headers" =
          (if (hh.filterMap (fun p => (Toml.as_str p.2).map
              (fun s => (p.1, Json.str s)))).isEmpty
           then none
           else some (Json.obj (hh.filterMap
             (fun p => (Toml.as_str p.2).map (fun s => (p.1, Json.str s))))))) ∧
    (∀ tbl hh, tget tbl "type" = some (Toml.str typ) →
      (tget tbl "http_headers").bind Toml.as_table = none →
      (tget tbl "headers").bind Toml.as_table = some hh →
      (hh.map Prod.fst).Nodup →
      ∃ spec, (toml_server_to_json id (Toml.table tbl)).1 = some (Json.obj spec) ∧
        alookup spec "headers" =
          (if (hh.filterMap (fun p => (Toml.as_str p.2).map
              (fun s => (p.1, Json.str s)))).isEmpty
           then none
           else some (Json.obj (hh.filterMap
             (fun p => (Toml.as_str p.2).map (fun s => (p.1, Json.str s))))))) ∧
    (∀ spec hs, Json.get spec "type" = some (Json.str typ) →
      Json.get spec "headers" = some (Json.obj hs) →
      (hs.map Prod.fst).Nodup →
      ∃ t, json_server_to_toml_table spec = .ok t ∧
        tget t "http_headers" =
          (if (hs.filterMap (fun p => (Json.as_str p.2).map
              (fun s => (p.1, Toml.str s)))).isEmpty
           then none
           else some (Toml.table (hs.filterMap
             (fun p => (Json.as_str p.2).map (fun s => (p.1, Toml.str s)))))) ∧
        tget t "headers" = none) := by
  refine ⟨?_, ?_, ?_⟩
  · intro tbl hh h1 h2 hnd
    refine read_headers_helper id typ htyp tbl hh h1 ?_ hnd
    rw [h2]
    rfl
  · intro tbl hh h1 hA hB hnd
    refine read_headers_helper id typ htyp tbl hh h1 ?_ hnd
    rw [hA]
    exact hB
  · intro spec hs h1 h2 hnd
    exact write_headers_helper typ htyp spec hs h1 h2 hnd

theorem spec_headers_dual_read_canonical_write_witness :
    (("http" : String) = "http" ∨ ("http" : String) = "sse") ∧
    ((∀ tbl hh, tget tbl "type" = some (Toml.str "http") →
      (tget tbl "http_headers").bind Toml.as_table = some hh →
      (hh.map Prod.fst).Nodup →
      ∃ spec, (toml_server_to_json "h" (Toml.table tbl)).1 = some (Json.obj spec) ∧
        alookup spec "headers" =
          (if (hh.filterMap (fun p => (Toml.as_str p.2).map
              (fun s => (p.1, Json.str s)))).isEmpty
           then none
           else some (Json.obj (hh.filterMap
             (fun p => (Toml.as_str p.2).map (fun s => (p.1, Json.str s))))))) ∧
    (∀ tbl hh, tget tbl "type" = some (Toml.str "http") →
      (tget tbl "http_headers").bind Toml.as_table = none →
      (tget tbl "headers").bind Toml.as_table = some hh →
      (hh.map Prod.fst).Nodup →
      ∃ spec, (toml_server_to_json "h" (Toml.table tbl)).1 = some (Json.obj spec) ∧
        alookup spec "headers" =
          (if (hh.filterMap (fun p => (Toml.as_str p.2).map
              (fun s => (p.1, Json.str s)))).isEmpty
           then none
           else some (Json.obj (hh.filterMap
             (fun p => (Toml.as_str p.2).map (fun s => (p.1, Json.str s))))))) ∧
    (∀ spec hs, Json.get spec "type" = some (Json.str "http") →
      Json.get spec "headers" = some (Json.obj hs) →
      (hs.map Prod.fst).Nodup →
      ∃ t, json_server_to_toml_table spec = .ok t ∧
        tget t "http_headers" =
          (if (hs.filterMap (fun p => (Json.as_str p.2).map
              (fun s => (p.1, Toml.str s)))).isEmpty
           then none
           else some (Toml.table (hs.filterMap
             (fun p => (Json.as_str p.2).map (fun s => (p.1, Toml.str s)))))) ∧
        tget t "headers" = none)) :=
  ⟨Or.inl rfl, spec_headers_dual_read_canonical_write "h" "http" (Or.inl rfl)⟩
